import Mathlib

/-!
# Verification of the `combine` asset bundler core

A shallow embedding of the `rvflash/combine` package (files `combine.go`,
`asset.go`).  Go strings are modelled as lists of byte values
(`Str := List Nat`); every character constant below is an ASCII code
(46 = dot, 47 = slash, 48..57 = digits, 99 = c, 106 = j, 115 = s).
Machine `uint32` arithmetic is modelled on `Nat` with explicit `% 2 ^ 32`.
External capabilities (the minifier, the filesystem, the HTTP client, the
`filepath.Clean` normalizer) are parameters of the functions that consume
them.  Concurrency primitives (`sync.Mutex`, `sync.WaitGroup`) guard or
signal without changing the sequential state and are noted where dropped.
-/

deriving instance DecidableEq for Except

namespace Combine

/-- Go strings as byte lists. -/
abbrev Str := List Nat

/-- Errors of the combine package together with the external error classes
that flow through it: `exist`, `unexpectedEOF`, `mime` and `notFound` are the
package's `ErrExist`, `ErrUnexpectedEOF`, `ErrMime`, `ErrNotFound`;
`badNum` is a `strconv.ParseUint` failure; `wrapNotFound e` is
`errors.Wrap(ErrNotFound, e.Error())`; `osStat` and `transport` stand for
operating-system and network errors surfaced by capabilities. -/
inductive GoErr
  | exist
  | unexpectedEOF
  | mime
  | notFound
  | badNum
  | wrapNotFound (cause : GoErr)
  | osStat
  | transport
deriving DecidableEq

/-- MIME type constant `CSS` (combine.go). -/
def CSS : String := "text/css"

/-- MIME type constant `JavaScript` (combine.go). -/
def JavaScript : String := "text/javascript"

/-- FNV-1 32-bit offset basis, the state of `hash/fnv.New32`. -/
def fnvOffset32 : Nat := 2166136261

/-- FNV-1 32-bit prime. -/
def fnvPrime32 : Nat := 16777619

/-- `crc32` (combine.go 369-375): the FNV-1 32-bit hash of the buffer; for
each byte the state is multiplied by the prime (wrapping `uint32`) and then
xor-ed with the byte.  The `h.Write` error branch is dead code (the fnv
hasher never fails) and is dropped, making the function total. -/
def crc32 (buf : Str) : Nat :=
  buf.foldl (fun h b => ((h * fnvPrime32) % 2 ^ 32) ^^^ b) fnvOffset32

/-- Content-kind constant `fileSrc` (combine.go, iota 0): a local file. -/
def fileSrc : Nat := 0

/-- Content-kind constant `inlineSrc` (combine.go, iota 1): an inline block. -/
def inlineSrc : Nat := 1

/-- Content-kind constant `onlineSrc` (combine.go, iota 2): an online file. -/
def onlineSrc : Nat := 2

/-- `raw` (combine.go 360-363): a content descriptor, kind plus payload. -/
structure Raw where
  kind : Nat
  buf : Str
deriving DecidableEq

/-- `raw.crc` (combine.go 365-367): the fingerprint hashes only the payload
bytes; the kind does not enter the hash. -/
def rawCrc (r : Raw) : Nat := crc32 r.buf

/-- `Static` (combine.go 272-276): a build-cache entry carrying the path of
the built artifact.  The embedded `sync.WaitGroup` completion signal is a
blocking primitive without effect on the sequential state; it is not
modelled. -/
structure Static where
  Link : Str
deriving DecidableEq

/-- Lookup in a Go map modelled as an association list (most recent store
first). -/
def mapLoad {α : Type} (k : Nat) (m : List (Nat × α)) : Option α :=
  (m.find? (fun p => p.1 == k)).map (·.2)

/-- Store in a Go map: the new binding shadows any older one, giving the
overwrite semantics of `m[k] = v`. -/
def mapStore {α : Type} (k : Nat) (v : α) (m : List (Nat × α)) : List (Nat × α) :=
  (k, v) :: m

/-- `delete(m, k)` on a Go map: every binding of the key disappears. -/
def mapDelete {α : Type} (k : Nat) (m : List (Nat × α)) : List (Nat × α) :=
  m.filter (fun p => !(p.1 == k))

/-- The `minMap` build cache of a `Box`, keyed by `crc32` of the identity
string. -/
abbrev MinMap := List (Nat × Static)

/-- `Box.Load` (combine.go 292-303): probe the build cache under the hash of
the key's string form.  The `crc32` error branch is dead code. -/
def boxLoad (m : MinMap) (key : Str) : Option Static :=
  mapLoad (crc32 key) m

/-- `Box.Store` (combine.go 318-326). -/
def boxStore (m : MinMap) (key : Str) (v : Static) : MinMap :=
  mapStore (crc32 key) v m

/-- `Box.Delete` (combine.go 279-287): removes the cache entry of the key. -/
def boxDelete (m : MinMap) (key : Str) : MinMap :=
  mapDelete (crc32 key) m

/-- `Box.LoadOrStore` (combine.go 308-315), exactly as written: on a miss it
returns `(value, false)` WITHOUT touching the map — the body has no call to
`Store`, so the placeholder is never installed; on a hit it waits on the
entry (`Wait`, not modelled) and returns it. -/
def boxLoadOrStore (m : MinMap) (key : Str) (value : Static) :
    (Static × Bool) × MinMap :=
  match boxLoad m key with
  | some actual => ((actual, true), m)
  | none => ((value, false), m)

/-- `Box.append` (combine.go 130-149).  The inner `createFile` closure
(`os.Create` followed by `src.Combine`) is an external effect whose outcome
is the `built` parameter (`none` = success).  On failure the function deletes
the build-cache entry of the identity before returning the error; on success
it publishes the file name on the `Static`.  `WaitGroup.Add/Done` are
signalling only and not modelled. -/
def appendBox (m : MinMap) (ident : Str) (name : Str) (built : Option GoErr)
    (dst : Static) : MinMap × Static × Option GoErr :=
  match built with
  | some e => (boxDelete m ident, dst, some e)
  | none => (m, { dst with Link := name }, none)

/-- One serving request for an already-decoded identity, the cache half of
`Box.Open` (combine.go 112-128): consult `LoadOrStore` with a fresh `Static`
placeholder; on a hit serve the stored link without building; on a miss run
`Box.append` (the build, outcome `built`).  Returns the cache state, the
number of build executions (0 or 1) and the link observed (`none` when the
request errors). -/
def serveOnce (m : MinMap) (ident name : Str) (built : Option GoErr) :
    MinMap × Nat × Option Str :=
  match boxLoadOrStore m ident ⟨[]⟩ with
  | ((d, true), m1) => (m1, 0, some d.Link)
  | ((d, false), m1) =>
    match appendBox m1 ident name built d with
    | (m2, dst, none) => (m2, 1, some dst.Link)
    | (m2, _, some _) => (m2, 1, none)

/-- Asset-side mutable state: the Box raw store plus the asset's ordered
fingerprint list. -/
structure AssetSt where
  raw : List (Nat × Raw)
  media : List Nat
deriving DecidableEq

/-- `asset.append` (asset.go 131-139): fingerprint the raw content with
`raw.crc`, store it in the Box raw map (`Box.storeRaw`, combine.go 347-351)
and push the key onto the media list.  The `crc` error branch is dead code. -/
def assetAppend (st : AssetSt) (r : Raw) : AssetSt :=
  { raw := mapStore (rawCrc r) r st.raw, media := st.media ++ [rawCrc r] }

/-- Decimal formatting worker with a fuel argument, so that the function is
structurally recursive and evaluates by reduction; `toDec` supplies enough
fuel. -/
def toDecAux : Nat → Nat → Str
  | 0, _ => []
  | fuel + 1, n => if n < 10 then [48 + n] else toDecAux fuel (n / 10) ++ [48 + n % 10]

/-- Decimal formatting of a natural number as ASCII byte codes, Go
`strconv.FormatUint(uint64(i), 10)`. -/
def toDec (n : Nat) : Str := toDecAux (n + 1) n

/-- ASCII decimal digit test. -/
def isDigitB (c : Nat) : Bool := decide (48 ≤ c) && decide (c < 58)

/-- The decimal core of Go `strconv.ParseUint(v, 10, _)`: fails on the empty
string and on any non-digit byte, otherwise folds the digits. -/
def parseDec (s : Str) : Option Nat :=
  if s = [] then none
  else if s.all isDigitB then some (s.foldl (fun a d => a * 10 + (d - 48)) 0)
  else none

/-- Go `strconv.ParseUint(v, 10, 32)`: additionally a range error when the
value does not fit in 32 bits. -/
def parseUint32 (s : Str) : Option Nat :=
  match parseDec s with
  | some n => if n < 2 ^ 32 then some n else none
  | none => none

/-- Wrapping `uint32` subtraction on naturals below `2 ^ 32`. -/
def sub32 (a b : Nat) : Nat := (a + 2 ^ 32 - b) % 2 ^ 32

/-- Wrapping `uint32` addition. -/
def add32 (a b : Nat) : Nat := (a + b) % 2 ^ 32

/-- Go `strings.Split(s, ".")`: the (possibly empty) components of `s`
between the dots. -/
def splitDot : Str → List Str
  | [] => [[]]
  | c :: rest =>
    match splitDot rest with
    | [] => [[]]
    | h :: t => if c = 46 then [] :: h :: t else (c :: h) :: t

/-- Go `path.Base`: strip trailing slashes, keep the part after the last
slash, with the special cases for the empty and the all-slash path. -/
def pathBase (s : Str) : Str :=
  if s = [] then [46]
  else
    let p := (s.reverse.dropWhile (fun c => c == 47)).reverse
    let q := (p.reverse.takeWhile (fun c => !(c == 47))).reverse
    if q = [] then [47] else q

/-- Go `strings.HasSuffix`. -/
def endsWith (s suf : Str) : Bool :=
  decide (suf.length ≤ s.length) && (s.drop (s.length - suf.length) == suf)

/-- Go `strings.TrimSuffix`. -/
def trimSuffix (s suf : Str) : Str :=
  if endsWith s suf then s.take (s.length - suf.length) else s

/-- `toHash` (combine.go 171-173). -/
def toHash (name ext : Str) : Str := trimSuffix (pathBase name) ext

/-- The bytes of ".js". -/
def jsExt : Str := [46, 106, 115]

/-- The bytes of ".css". -/
def cssExt : Str := [46, 99, 115, 115]

/-- The minimum scan of `asset.String` (asset.go 225-231): the accumulator
starts at zero and takes the key whenever it is zero or greater than the
key, so a zero fingerprint restarts the scan and the result need not be the
true minimum — which the wrapping delta arithmetic tolerates. -/
def assetMin (media : List Nat) : Nat :=
  media.foldl (fun mn key => if mn = 0 ∨ key < mn then key else mn) 0

/-- The dotted hash built by the loop of `asset.String` (asset.go 232-239):
the scanned minimum followed by one wrapping `uint32` delta per fingerprint,
in insertion order.  For a non-empty media list — the only case in which
`asset.String` reaches the loop — this closed form equals the loop. -/
def assetHash (media : List Nat) : Str :=
  toDec (assetMin media)
    ++ (media.map (fun f => 46 :: toDec (sub32 f (assetMin media)))).flatten

/-- `asset` (asset.go 25-29): media kind plus ordered fingerprint list; the
`reg` back-pointer is the Box state, passed separately where needed. -/
structure Asset where
  kind : String
  media : List Nat
deriving DecidableEq

/-- `asset.String` (asset.go 218-244): the empty asset gives the empty
token, otherwise the dotted hash with ".js" appended for the JavaScript
kind and ".css" for every other kind. -/
def assetString (a : Asset) : Str :=
  if a.media = [] then []
  else if a.kind = JavaScript then assetHash a.media ++ jsExt
  else assetHash a.media ++ cssExt

/-- The extension choice of `Box.newAsset` (combine.go 217-235): the CSS
media type is paired with ".js" and JavaScript with ".css" — the pairing is
swapped in the source text; any other type is `ErrMime`. -/
def newAssetExt (mediaType : String) : Option Str :=
  if mediaType = CSS then some jsExt
  else if mediaType = JavaScript then some cssExt
  else none

/-- The key loop of `Box.ToAsset` over the components after the first:
`a.media[k-1] = uint32(i) + min` with wrapping addition, failing on any
component rejected by `strconv.ParseUint`. -/
def parseDeltas (mn : Nat) : List Str → Option (List Nat)
  | [] => some []
  | v :: rest =>
    match parseUint32 v with
    | none => none
    | some i =>
      match parseDeltas mn rest with
      | none => none
      | some tail => some (add32 i mn :: tail)

/-- `Box.ToAsset` (combine.go 188-215): pick the extension of the media type
(`ErrMime` otherwise), split the trimmed hash on dots, reject fewer than two
components with `ErrUnexpectedEOF` (`len(keys)-1 < 1`), parse the first
component as the minimum and shift every later component by it. -/
def toAsset (mediaType : String) (hash : Str) : Except GoErr Asset :=
  match newAssetExt mediaType with
  | none => .error .mime
  | some ext =>
    match splitDot (toHash hash ext) with
    | [] => .error .unexpectedEOF
    | [_] => .error .unexpectedEOF
    | k0 :: k1 :: rest =>
      match parseUint32 k0 with
      | none => .error .badNum
      | some mn =>
        match parseDeltas mn (k1 :: rest) with
        | none => .error .badNum
        | some media => .ok ⟨mediaType, media⟩

/-- Worker for `pathExt`: scans the reversed path, carrying the bytes
already passed in original order; a slash ends the scan with no extension, a
dot yields the extension from the dot on. -/
def pathExtRev : Str → Str → Str
  | _, [] => []
  | acc, c :: rest =>
    if c = 47 then []
    else if c = 46 then 46 :: acc
    else pathExtRev (c :: acc) rest

/-- Go `path.Ext`: the suffix of the last path element from its final dot,
empty when there is none. -/
def pathExt (s : Str) : Str := pathExtRev [] s.reverse

/-- `split` (combine.go 157-169), verbatim: the ".js" extension selects the
CSS media type and ".css" selects JavaScript, and the hash is computed by
`toHash(hash, ext)` from the still-empty `hash` named return value instead
of from `name`. -/
def split (name : Str) : String × Str :=
  let ext := pathExt name
  if ext = jsExt then (CSS, toHash [] ext)
  else if ext = cssExt then (JavaScript, toHash [] ext)
  else ("", [])

/-- An HTTP response as seen through the `HTTPGetter` capability. -/
structure Resp where
  statusCode : Nat
  body : Str
deriving DecidableEq

/-- The external capabilities consumed by the combine pipeline: the per-kind
minifiers (tdewolff/minify), the filesystem open-and-read, and the HTTP
client (`Box.http`). -/
structure MinEnv where
  minifyJS : Str → Except GoErr Str
  minifyCSS : Str → Except GoErr Str
  openFile : Str → Except GoErr Str
  httpGet : Str → Except GoErr Resp

/-- `newMinify` (asset.go 178-189): register the JS or CSS minifier for the
media kind; any other kind is `ErrMime`. -/
def newMinify (env : MinEnv) (kind : String) :
    Except GoErr (Str → Except GoErr Str) :=
  if kind = JavaScript then .ok env.minifyJS
  else if kind = CSS then .ok env.minifyCSS
  else .error .mime

/-- The minifier `newMinify` registers for a good kind. -/
def minifierOf (env : MinEnv) (kind : String) : Str → Except GoErr Str :=
  if kind = JavaScript then env.minifyJS else env.minifyCSS

/-- `asset.minify` (asset.go 191-193): minify the inline buffer. -/
def minifyInline (m : Str → Except GoErr Str) (r : Raw) : Except GoErr Str :=
  m r.buf

/-- `asset.minifyFile` (asset.go 195-202): open the referenced file (its
path is the payload) and minify its content; an open error surfaces as is. -/
def minifyFileGo (env : MinEnv) (m : Str → Except GoErr Str) (r : Raw) :
    Except GoErr Str :=
  match env.openFile r.buf with
  | .error e => .error e
  | .ok content => m content

/-- `asset.minifyURL` (asset.go 204-215): GET the referenced URL (the
payload); a transport error surfaces as is, a status of 400 or above is
`ErrNotFound`, otherwise the body is minified. -/
def minifyURLGo (env : MinEnv) (m : Str → Except GoErr Str) (r : Raw) :
    Except GoErr Str :=
  match env.httpGet r.buf with
  | .error e => .error e
  | .ok resp =>
    if 400 ≤ resp.statusCode then .error .notFound else m resp.body

/-- The kind switch of `asset.Combine` (asset.go 160-173): `fileSrc` and
`onlineSrc` get their resolvers, everything else is treated as inline. -/
def fragStep (env : MinEnv) (m : Str → Except GoErr Str) (r : Raw) :
    Except GoErr Str :=
  if r.kind = fileSrc then minifyFileGo env m r
  else if r.kind = onlineSrc then minifyURLGo env m r
  else minifyInline m r

/-- The fragment loop of `asset.Combine` (asset.go 155-175): first component
is everything written to `w` so far, second the error that stopped the loop
(`ErrNotFound` for a fingerprint absent from the raw store, the wrapped
`errors.Wrap(ErrNotFound, ...)` for a per-fragment failure). -/
def combineLoop (env : MinEnv) (m : Str → Except GoErr Str)
    (store : List (Nat × Raw)) : List Nat → Str × Option GoErr
  | [] => ([], none)
  | key :: rest =>
    match mapLoad key store with
    | none => ([], some .notFound)
    | some r =>
      match fragStep env m r with
      | .error e => ([], some (.wrapNotFound e))
      | .ok out =>
        let tail := combineLoop env m store rest
        (out ++ tail.1, tail.2)

/-- `asset.Combine` (asset.go 150-176): build the minifier for the asset
kind, then run the fragment loop against the Box raw store. -/
def combineAsset (env : MinEnv) (store : List (Nat × Raw)) (a : Asset) :
    Str × Option GoErr :=
  match newMinify env a.kind with
  | .error e => ([], some e)
  | .ok m => combineLoop env m store a.media

/-- Concrete environment for the C7 witness: identity minifier, one inline
fragment stored under key 7 and one under key 9. -/
def envW : MinEnv :=
  ⟨fun s => .ok s, fun s => .ok s, fun _ => .error .osStat,
    fun _ => .error .transport⟩

/-- Raw store for the C7 witness. -/
def storeW : List (Nat × Raw) := [(7, ⟨1, [97]⟩), (9, ⟨1, [98]⟩)]

/-- Environment for the C8 witness: every GET yields a 404 response with a
non-empty body. -/
def env404 : MinEnv :=
  ⟨fun s => .ok s, fun s => .ok s, fun _ => .error .osStat,
    fun _ => .ok ⟨404, [110, 111]⟩⟩

/-- Environment for the C8 witness: every GET fails at transport level. -/
def envDown : MinEnv :=
  ⟨fun s => .ok s, fun s => .ok s, fun _ => .error .osStat,
    fun _ => .error .transport⟩

/-- Go `Dir.String`: the empty directory means ".", otherwise
`filepath.Clean`; the Clean algorithm is operating-system path
normalization, passed as the capability `clean`. -/
def dirStr (clean : Str → Str) (d : Str) : Str :=
  if d = [] then [46] else clean d

/-- Go `filepath.Join` of two elements: empty elements are dropped, the rest
joined with the separator, and the result cleaned. -/
def joinPath (clean : Str → Str) (a b : Str) : Str :=
  if a = [] then if b = [] then [] else clean b
  else if b = [] then clean a
  else clean (a ++ 47 :: b)

/-- `asset.AddFile` (asset.go 79-95) over the asset/raw state, with
`os.Stat` as a capability (`none` = the file exists).  Each name whose
`Dir` form is "." is rejected with `ErrUnexpectedEOF`; a stat failure is
returned as is; otherwise the joined path is registered as a `fileSrc`
fragment and the loop continues.  Returns the final state and the first
error. -/
def addFile (clean : Str → Str) (stat : Str → Option GoErr) (src : Str) :
    AssetSt → List Str → AssetSt × Option GoErr
  | st, [] => (st, none)
  | st, n :: rest =>
    let file := dirStr clean n
    if file = [46] then (st, some .unexpectedEOF)
    else
      let name := joinPath clean (dirStr clean src) file
      match stat name with
      | some e => (st, some e)
      | none => addFile clean stat src (assetAppend st ⟨fileSrc, name⟩) rest

/-- After deleting a key, looking it up misses. -/
theorem mapLoad_mapDelete {α : Type} (k : Nat) (m : List (Nat × α)) :
    mapLoad k (mapDelete k m) = none := by
  induction m with
  | nil => rfl
  | cons p t ih =>
    by_cases h : p.1 = k
    · simp only [mapDelete, List.filter_cons, h]
      simp only [mapDelete] at ih
      simp [ih]
    · simp only [mapDelete, mapLoad, List.filter_cons, List.find?, h] at ih ⊢
      simp [h, ih]

/-- C2: the claim says `LoadOrStore` on an absent key installs the
placeholder into the cache map before returning `(placeholder, false)`, so
that an immediately subsequent `Load` finds it.  The code's `LoadOrStore`
has no store step: evaluated on the empty cache and the key "1.0", it
returns `(placeholder, false)` with the map unchanged, and the subsequent
`Load` of the same key still misses. -/
theorem loadOrStore_does_not_install :
    boxLoadOrStore [] [49, 46, 48] ⟨[]⟩ = ((⟨[]⟩, false), [])
    ∧ boxLoad ((boxLoadOrStore [] [49, 46, 48] ⟨[]⟩).2) [49, 46, 48] = none := by
  constructor
  · rfl
  · rfl

/-- C3: the claim says that for N concurrent requests for a never-before-built
identity exactly one build executes.  In the serialized schedule (a legal
interleaving for N = 2) both requests execute the build: nothing is ever
stored in the build cache (`LoadOrStore` drops the placeholder and neither
`Open` nor `append` calls `Store`), so the second request misses again and
rebuilds. -/
theorem second_request_rebuilds :
    (serveOnce [] [49, 46, 48] [110] none).2.1 = 1
    ∧ (serveOnce (serveOnce [] [49, 46, 48] [110] none).1
        [49, 46, 48] [110] none).2.1 = 1 := by
  constructor
  · rfl
  · rfl

/-- C4: when the build fails, `Box.append` deletes the build-cache entry of
the bundle identity before returning the error, so the entry is absent
afterwards and a later request for the same identity takes the build path of
`LoadOrStore` (loaded = false) instead of being stuck on a stored empty
result. -/
theorem failed_append_deletes_entry (m : MinMap) (ident name : Str)
    (e : GoErr) (d : Static) :
    (appendBox m ident name (some e) d).2.2 = some e
    ∧ boxLoad (appendBox m ident name (some e) d).1 ident = none
    ∧ (boxLoadOrStore (appendBox m ident name (some e) d).1 ident ⟨[]⟩).1.2
        = false := by
  have h : boxLoad (boxDelete m ident) ident = none :=
    mapLoad_mapDelete (crc32 ident) m
  refine ⟨rfl, h, ?_⟩
  simp [appendBox, boxLoadOrStore, h]

/-- C10: the fingerprint of a fragment is `crc32` of its payload bytes alone
— two raws with equal payloads and different kinds hash identically — and
appending the second fragment overwrites the first one's descriptor
(including its kind) in the raw store, while the media list records the
shared fingerprint twice. -/
theorem crc_ignores_kind_and_overwrites (k₁ k₂ : Nat) (buf : Str)
    (st : AssetSt) :
    rawCrc ⟨k₁, buf⟩ = rawCrc ⟨k₂, buf⟩
    ∧ mapLoad (crc32 buf)
        (assetAppend (assetAppend st ⟨k₁, buf⟩) ⟨k₂, buf⟩).raw = some ⟨k₂, buf⟩
    ∧ (assetAppend (assetAppend st ⟨k₁, buf⟩) ⟨k₂, buf⟩).media
        = st.media ++ [crc32 buf, crc32 buf] := by
  refine ⟨rfl, ?_, ?_⟩
  · simp [assetAppend, rawCrc, mapLoad, mapStore, List.find?]
  · simp [assetAppend, rawCrc]

theorem toDecAux_irrel :
    ∀ f₁ f₂ n : Nat, n < f₁ → n < f₂ → toDecAux f₁ n = toDecAux f₂ n := by
  intro f₁
  induction f₁ with
  | zero => intro f₂ n h1 _; exact absurd h1 (by omega)
  | succ k ih =>
    intro f₂ n h1 h2
    cases f₂ with
    | zero => exact absurd h2 (by omega)
    | succ m =>
      simp only [toDecAux]
      by_cases h10 : n < 10
      · simp [h10]
      · simp only [if_neg h10]
        rw [ih m (n / 10) (by omega) (by omega)]

/-- The recurrence satisfied by `toDec`. -/
theorem toDec_eq (n : Nat) :
    toDec n = if n < 10 then [48 + n] else toDec (n / 10) ++ [48 + n % 10] := by
  by_cases h : n < 10
  · simp [toDec, toDecAux, h]
  · have hstep : toDec n = toDecAux n (n / 10) ++ [48 + n % 10] := by
      simp only [toDec, toDecAux, if_neg h]
    rw [hstep, if_neg h,
      toDecAux_irrel n (n / 10 + 1) (n / 10) (by omega) (by omega)]
    rfl

theorem toDec_ne_nil (n : Nat) : toDec n ≠ [] := by
  rw [toDec_eq]
  by_cases h : n < 10 <;> simp [h]

/-- Every byte of a formatted decimal is an ASCII digit. -/
theorem toDec_digits (n : Nat) : ∀ c ∈ toDec n, 48 ≤ c ∧ c < 58 := by
  induction n using Nat.strong_induction_on with
  | _ n ih =>
    intro c hc
    rw [toDec_eq] at hc
    by_cases h : n < 10
    · rw [if_pos h] at hc
      simp only [List.mem_singleton] at hc
      omega
    · rw [if_neg h] at hc
      rcases List.mem_append.mp hc with hc | hc
      · exact ih (n / 10) (by omega) c hc
      · simp only [List.mem_singleton] at hc
        omega

/-- Folding the digit-accumulator over a formatted decimal recovers the
number (generalized over the accumulator). -/
theorem toDec_foldl (n : Nat) :
    ∀ acc : Nat, (toDec n).foldl (fun a d => a * 10 + (d - 48)) acc
      = acc * 10 ^ (toDec n).length + n := by
  induction n using Nat.strong_induction_on with
  | _ n ih =>
    intro acc
    rw [toDec_eq]
    by_cases h : n < 10
    · rw [if_pos h]
      simp only [List.foldl_cons, List.foldl_nil, List.length_singleton, pow_one]
      omega
    · rw [if_neg h]
      rw [List.foldl_append, ih (n / 10) (by omega) acc]
      simp only [List.foldl_cons, List.foldl_nil, List.length_append,
        List.length_singleton, pow_succ, ← Nat.mul_assoc]
      generalize acc * 10 ^ (toDec (n / 10)).length = A
      omega

theorem parseDec_toDec (n : Nat) : parseDec (toDec n) = some n := by
  have hd : (toDec n).all isDigitB = true := by
    rw [List.all_eq_true]
    intro c hc
    have := toDec_digits n c hc
    simp only [isDigitB, Bool.and_eq_true, decide_eq_true_eq]
    omega
  simp [parseDec, toDec_ne_nil n, hd, toDec_foldl n 0]

theorem parseUint32_toDec (n : Nat) (h : n < 2 ^ 32) :
    parseUint32 (toDec n) = some n := by
  simp only [parseUint32, parseDec_toDec]
  rw [if_pos h]

theorem sub32_lt (a b : Nat) : sub32 a b < 2 ^ 32 :=
  Nat.mod_lt _ (by norm_num)

/-- Adding back the subtrahend undoes a wrapping subtraction. -/
theorem add32_sub32 (a b : Nat) (ha : a < 2 ^ 32) (hb : b < 2 ^ 32) :
    add32 (sub32 a b) b = a := by
  unfold sub32 add32
  omega

theorem splitDot_ne_nil (s : Str) : splitDot s ≠ [] := by
  cases s with
  | nil => simp [splitDot]
  | cons c rest =>
    simp only [splitDot]
    cases splitDot rest with
    | nil => simp
    | cons h t => by_cases hc : c = 46 <;> simp [hc]

theorem splitDot_no_dot (s : Str) (h : ∀ c ∈ s, ¬ c = 46) : splitDot s = [s] := by
  induction s with
  | nil => rfl
  | cons c rest ih =>
    have hc : ¬ c = 46 := h c (by simp)
    have ih' := ih (fun d hd => h d (by simp [hd]))
    simp [splitDot, ih', hc]

/-- Splitting a string whose head block is dot-free peels off that block. -/
theorem splitDot_append_dot (xs ys : Str) (h : ∀ c ∈ xs, ¬ c = 46) :
    splitDot (xs ++ 46 :: ys) = xs :: splitDot ys := by
  induction xs with
  | nil =>
    simp only [List.nil_append, splitDot]
    cases hsp : splitDot ys with
    | nil => exact absurd hsp (splitDot_ne_nil ys)
    | cons hh tt => simp
  | cons c rest ih =>
    have hc : ¬ c = 46 := h c (by simp)
    have ih' := ih (fun d hd => h d (by simp [hd]))
    simp only [List.cons_append, splitDot, ih']
    simp only [if_neg hc, List.append_eq]
    rw [ih']

theorem toDec_no_dot (n : Nat) : ∀ c ∈ toDec n, ¬ c = 46 := by
  intro c hc
  have := toDec_digits n c hc
  omega

/-- Splitting a dotted hash of the shape built by `asset.String` recovers its
components. -/
theorem splitDot_hash (g : Nat → Nat) :
    ∀ (L : List Nat) (mnv : Nat),
      splitDot (toDec mnv ++ (L.map (fun f => 46 :: toDec (g f))).flatten)
        = toDec mnv :: L.map (fun f => toDec (g f)) := by
  intro L
  induction L with
  | nil =>
    intro mnv
    simpa using splitDot_no_dot (toDec mnv) (toDec_no_dot mnv)
  | cons f L' ih =>
    intro mnv
    have step : toDec mnv ++ ((f :: L').map (fun f => 46 :: toDec (g f))).flatten
        = toDec mnv ++ 46 :: (toDec (g f)
            ++ (L'.map (fun f => 46 :: toDec (g f))).flatten) := by
      simp
    rw [step, splitDot_append_dot _ _ (toDec_no_dot mnv), ih (g f)]
    simp

/-- Helper: `dropWhile` is the identity when no element satisfies the
predicate. -/
theorem dropWhile_eq_self (p : Nat → Bool) (l : Str)
    (h : ∀ c ∈ l, p c = false) : l.dropWhile p = l := by
  cases l with
  | nil => rfl
  | cons a t => simp [List.dropWhile_cons, h a (by simp)]

/-- Helper: `takeWhile` is the identity when every element satisfies the
predicate. -/
theorem takeWhile_eq_self (p : Nat → Bool) (l : Str)
    (h : ∀ c ∈ l, p c = true) : l.takeWhile p = l := by
  induction l with
  | nil => rfl
  | cons a t ih =>
    simp [List.takeWhile_cons, h a (by simp), ih (fun c hc => h c (by simp [hc]))]

/-- On a non-empty slash-free string, `path.Base` is the identity. -/
theorem pathBase_id (s : Str) (hne : s ≠ []) (h47 : ∀ c ∈ s, ¬ c = 47) :
    pathBase s = s := by
  have hdrop : s.reverse.dropWhile (fun c => c == 47) = s.reverse := by
    apply dropWhile_eq_self
    intro c hc
    simpa using h47 c (List.mem_reverse.mp hc)
  have htake : s.reverse.takeWhile (fun c => !(c == 47)) = s.reverse := by
    apply takeWhile_eq_self
    intro c hc
    simpa using h47 c (List.mem_reverse.mp hc)
  simp [pathBase, hne, hdrop, htake]

theorem endsWith_mem (s suf : Str) (h : endsWith s suf = true) :
    ∀ c ∈ suf, c ∈ s := by
  intro c hc
  simp only [endsWith, Bool.and_eq_true, decide_eq_true_eq, beq_iff_eq] at h
  have hcd : c ∈ s.drop (s.length - suf.length) := by rw [h.2]; exact hc
  exact List.drop_subset _ s hcd

/-- `TrimSuffix` does nothing when some byte of the suffix does not occur in
the string at all. -/
theorem trimSuffix_id (s suf : Str) (x : Nat) (hx : x ∈ suf) (hxs : x ∉ s) :
    trimSuffix s suf = s := by
  cases h : endsWith s suf with
  | false => simp [trimSuffix, h]
  | true => exact absurd (endsWith_mem s suf h x hx) hxs

theorem assetMin_fold_lt (L : List Nat) :
    ∀ acc, acc < 2 ^ 32 → (∀ f ∈ L, f < 2 ^ 32) →
      L.foldl (fun mn key => if mn = 0 ∨ key < mn then key else mn) acc
        < 2 ^ 32 := by
  induction L with
  | nil => intro acc ha _; simpa using ha
  | cons f t ih =>
    intro acc ha h
    simp only [List.foldl_cons]
    by_cases hc : acc = 0 ∨ f < acc
    · rw [if_pos hc]
      exact ih f (h f (by simp)) (fun g hg => h g (by simp [hg]))
    · rw [if_neg hc]
      exact ih acc ha (fun g hg => h g (by simp [hg]))

theorem assetMin_lt (L : List Nat) (h : ∀ f ∈ L, f < 2 ^ 32) :
    assetMin L < 2 ^ 32 :=
  assetMin_fold_lt L 0 (by norm_num) h

/-- Every byte of the dotted hash is a digit or a dot. -/
theorem assetHash_chars (L : List Nat) :
    ∀ c ∈ assetHash L, (48 ≤ c ∧ c < 58) ∨ c = 46 := by
  intro c hc
  unfold assetHash at hc
  rcases List.mem_append.mp hc with hc | hc
  · exact Or.inl (toDec_digits _ c hc)
  · rcases List.mem_flatten.mp hc with ⟨blk, hblk, hcb⟩
    rcases List.mem_map.mp hblk with ⟨f, _, rfl⟩
    rcases List.mem_cons.mp hcb with hcb | hcb
    · exact Or.inr hcb
    · exact Or.inl (toDec_digits _ c hcb)

theorem assetHash_ne_nil (L : List Nat) : assetHash L ≠ [] := by
  unfold assetHash
  intro hcon
  exact toDec_ne_nil _ (List.append_eq_nil.mp hcon).1

/-- `toHash` leaves a non-empty digits-and-dots string untouched for either
media extension. -/
theorem toHash_hashChars (s : Str) (hne : s ≠ [])
    (h : ∀ c ∈ s, (48 ≤ c ∧ c < 58) ∨ c = 46) (ext : Str)
    (hx : ext = jsExt ∨ ext = cssExt) : toHash s ext = s := by
  have h47 : ∀ c ∈ s, ¬ c = 47 := fun c hc => by
    rcases h c hc with h1 | h1 <;> omega
  unfold toHash
  rw [pathBase_id s hne h47]
  rcases hx with rfl | rfl
  · refine trimSuffix_id s _ 106 (by simp [jsExt]) ?_
    intro hmem
    rcases h 106 hmem with h1 | h1 <;> omega
  · refine trimSuffix_id s _ 99 (by simp [cssExt]) ?_
    intro hmem
    rcases h 99 hmem with h1 | h1 <;> omega

/-- The delta loop of `ToAsset` undoes the delta construction of
`asset.String`. -/
theorem parseDeltas_map (mn : Nat) (hmn : mn < 2 ^ 32) :
    ∀ L : List Nat, (∀ f ∈ L, f < 2 ^ 32) →
      parseDeltas mn (L.map (fun f => toDec (sub32 f mn))) = some L := by
  intro L
  induction L with
  | nil => intro _; rfl
  | cons f t ih =>
    intro h
    simp only [List.map_cons, parseDeltas,
      parseUint32_toDec _ (sub32_lt f mn),
      ih (fun g hg => h g (by simp [hg])),
      add32_sub32 f mn (h f (by simp)) hmn]

/-- C1 (counterexample): decoding the literal `asset.String` output of the
fingerprint list [1] for the JavaScript media type fails with a numeric
parse error — `ToAsset` pairs JavaScript with the ".css" extension, cannot
strip the ".js" the encoder appended, and chokes on the component "js" — so
`decode(encode(L)) = L` does not hold as stated. -/
theorem toAsset_assetString_not_roundtrip :
    toAsset JavaScript (assetString ⟨JavaScript, [1]⟩) = .error .badNum := by
  decide

/-- C1 (amended): for every non-empty fingerprint list of `uint32` values,
decoding the extension-less hash portion of the encoder's token — what the
serving path is meant to hand `ToAsset` after stripping the media extension
— yields exactly the original ordered list, duplicates included, the deltas
wrapping modulo `2 ^ 32`. -/
theorem toAsset_assetHash_roundtrip (kind : String) (L : List Nat)
    (hk : kind = CSS ∨ kind = JavaScript) (hne : L ≠ [])
    (hb : ∀ f ∈ L, f < 2 ^ 32) :
    toAsset kind (assetHash L) = .ok ⟨kind, L⟩ := by
  have hmn : assetMin L < 2 ^ 32 := assetMin_lt L hb
  obtain ⟨ext, hext, hextjs⟩ :
      ∃ ext, newAssetExt kind = some ext ∧ (ext = jsExt ∨ ext = cssExt) := by
    rcases hk with rfl | rfl
    · exact ⟨jsExt, by decide, Or.inl rfl⟩
    · exact ⟨cssExt, by decide, Or.inr rfl⟩
  have hth : toHash (assetHash L) ext = assetHash L :=
    toHash_hashChars _ (assetHash_ne_nil _) (assetHash_chars _) ext hextjs
  cases L with
  | nil => exact absurd rfl hne
  | cons f L' =>
    have hsplit : splitDot (assetHash (f :: L'))
        = toDec (assetMin (f :: L'))
          :: (f :: L').map (fun g => toDec (sub32 g (assetMin (f :: L')))) := by
      unfold assetHash
      exact splitDot_hash (fun g => sub32 g (assetMin (f :: L')))
        (f :: L') (assetMin (f :: L'))
    have hdeltas := parseDeltas_map (assetMin (f :: L')) hmn (f :: L') hb
    simp only [List.map_cons] at hsplit hdeltas
    simp only [toAsset, hext, hth, hsplit, parseUint32_toDec _ hmn, hdeltas]

/-- C1 witness: the amended round trip evaluated at the CSS kind and the
list [0, 5], whose first delta wraps (0 - 5 becomes 4294967291). -/
theorem toAsset_assetHash_roundtrip_witness :
    toAsset CSS (assetHash [0, 5]) = .ok ⟨CSS, [0, 5]⟩ :=
  toAsset_assetHash_roundtrip CSS [0, 5] (Or.inl rfl) (by decide) (by decide)

/-- C6 (counterexample): the empty token produced by encoding the empty
fingerprint list is rejected with the numeric parse error, not with
`ErrUnexpectedEOF`: `path.Base("")` is "." and splitting "." yields two
empty components, so the length guard passes and `ParseUint("")` fails. -/
theorem empty_token_not_unexpectedEOF :
    toAsset JavaScript (assetString ⟨JavaScript, []⟩) = .error .badNum
    ∧ GoErr.badNum ≠ GoErr.unexpectedEOF := by
  constructor
  · decide
  · decide

/-- C6 (amended): both degenerate token shapes are rejected and produce no
asset, but with different errors: the empty token fails with the numeric
parse error (via `path.Base("") = "."`), while a token consisting of only
the minimum component with no deltas fails with `ErrUnexpectedEOF`, for
either media type. -/
theorem degenerate_tokens_rejected (n : Nat) :
    (toAsset CSS [] = .error .badNum ∧ toAsset JavaScript [] = .error .badNum)
    ∧ (toAsset CSS (toDec n) = .error .unexpectedEOF
        ∧ toAsset JavaScript (toDec n) = .error .unexpectedEOF) := by
  have hsingle : ∀ ext, ext = jsExt ∨ ext = cssExt →
      splitDot (toHash (toDec n) ext) = [toDec n] := by
    intro ext hx
    rw [toHash_hashChars (toDec n) (toDec_ne_nil n)
      (fun c hc => Or.inl (toDec_digits n c hc)) ext hx]
    exact splitDot_no_dot _ (toDec_no_dot n)
  have hCSS : newAssetExt CSS = some jsExt := by decide
  have hJS : newAssetExt JavaScript = some cssExt := by decide
  refine ⟨⟨by decide, by decide⟩, ?_, ?_⟩
  · simp only [toAsset, hCSS, hsingle jsExt (Or.inl rfl)]
  · simp only [toAsset, hJS, hsingle cssExt (Or.inr rfl)]

/-- C5: evaluation at the request path "1.0.js": `split` returns the CSS
(stylesheet) media type for a ".js" path together with the hash "." — it
feeds the empty named return value into `toHash` — and `ToAsset` on that
hash fails with a numeric parse error, so a ".js" request path never yields
a script asset. -/
theorem split_js_request_misroutes :
    split [49, 46, 48, 46, 106, 115] = (CSS, [46])
    ∧ toAsset CSS [46] = .error .badNum
    ∧ CSS ≠ JavaScript := by
  refine ⟨by decide, by decide, by decide⟩

/-- Anchor against the repository's own test vector (`TestAsset_Tag`):
hashing the bytes of "var a = 56;" gives 2925958264 and the JavaScript
asset token is "2925958264.0.js". -/
theorem crc32_matches_repo_test :
    crc32 [118, 97, 114, 32, 97, 32, 61, 32, 53, 54, 59] = 2925958264
    ∧ assetString ⟨JavaScript, [2925958264]⟩
        = [50, 57, 50, 53, 57, 53, 56, 50, 54, 52, 46, 48, 46, 106, 115] := by
  constructor
  · decide
  · decide

theorem newMinify_ok (env : MinEnv) (kind : String)
    (hk : kind = JavaScript ∨ kind = CSS) :
    newMinify env kind = .ok (minifierOf env kind) := by
  rcases hk with rfl | rfl
  · rfl
  · rfl

/-- A prefix whose fragments all resolve contributes its minified outputs in
order, and the loop continues on the rest. -/
theorem combineLoop_append (env : MinEnv) (m : Str → Except GoErr Str)
    (store : List (Nat × Raw)) (rFn : Nat → Raw) (outFn : Nat → Str) :
    ∀ (pre rest : List Nat),
      (∀ k ∈ pre, mapLoad k store = some (rFn k)
        ∧ fragStep env m (rFn k) = .ok (outFn k)) →
      combineLoop env m store (pre ++ rest)
        = ((pre.map outFn).flatten ++ (combineLoop env m store rest).1,
           (combineLoop env m store rest).2) := by
  intro pre
  induction pre with
  | nil => intro rest _; simp
  | cons k pre' ih =>
    intro rest h
    have hk := h k (by simp)
    simp only [List.cons_append, combineLoop, hk.1, hk.2, List.append_eq,
      ih rest (fun g hg => h g (by simp [hg])), List.map_cons,
      List.flatten_cons, List.append_assoc]

/-- C7: with every fingerprint of the asset present in the raw store and
every per-fragment resolution and minification succeeding, `Combine` writes
exactly the delimiter-free concatenation of the minified fragments in
insertion order, duplicates included; a fingerprint absent from the raw
store stops the loop right there with `ErrNotFound`; and any per-fragment
failure aborts the build with the wrapped not-found error carrying the
cause. -/
theorem combine_writes_ordered_concatenation (env : MinEnv)
    (store : List (Nat × Raw)) (kind : String) (rFn : Nat → Raw)
    (outFn : Nat → Str) (media : List Nat)
    (hk : kind = JavaScript ∨ kind = CSS) :
    ((∀ k ∈ media, mapLoad k store = some (rFn k)
        ∧ fragStep env (minifierOf env kind) (rFn k) = .ok (outFn k)) →
      combineAsset env store ⟨kind, media⟩ = ((media.map outFn).flatten, none))
    ∧ (∀ pre key post, media = pre ++ key :: post →
        (∀ k ∈ pre, mapLoad k store = some (rFn k)
          ∧ fragStep env (minifierOf env kind) (rFn k) = .ok (outFn k)) →
        mapLoad key store = none →
        combineAsset env store ⟨kind, media⟩
          = ((pre.map outFn).flatten, some .notFound))
    ∧ (∀ pre key post e, media = pre ++ key :: post →
        (∀ k ∈ pre, mapLoad k store = some (rFn k)
          ∧ fragStep env (minifierOf env kind) (rFn k) = .ok (outFn k)) →
        mapLoad key store = some (rFn key) →
        fragStep env (minifierOf env kind) (rFn key) = .error e →
        combineAsset env store ⟨kind, media⟩
          = ((pre.map outFn).flatten, some (.wrapNotFound e))) := by
  have hca : combineAsset env store ⟨kind, media⟩
      = combineLoop env (minifierOf env kind) store media := by
    simp [combineAsset, newMinify_ok env kind hk]
  refine ⟨?_, ?_, ?_⟩
  · intro h
    have := combineLoop_append env (minifierOf env kind) store rFn outFn
      media [] h
    simpa [hca, combineLoop] using this
  · intro pre key post hmedia hpre hmiss
    subst hmedia
    rw [hca, combineLoop_append env (minifierOf env kind) store rFn outFn
      pre (key :: post) hpre]
    simp [combineLoop, hmiss]
  · intro pre key post e hmedia hpre hhit hfail
    subst hmedia
    rw [hca, combineLoop_append env (minifierOf env kind) store rFn outFn
      pre (key :: post) hpre]
    simp [combineLoop, hhit, hfail]

/-- C7 witness: the success branch evaluated on the media list [7, 9, 7]
(a duplicate included): the output is "aba" with no separator and no error;
the miss branch evaluated on [7, 3] stops with `ErrNotFound` after writing
"a"; the failure branch evaluated on a URL fragment whose GET fails wraps
the transport error. -/
theorem combine_witness_eval :
    combineAsset envW storeW ⟨JavaScript, [7, 9, 7]⟩ = ([97, 98, 97], none)
    ∧ combineAsset envW storeW ⟨JavaScript, [7, 3]⟩
        = ([97], some .notFound)
    ∧ combineAsset envW ((11, ⟨2, [104]⟩) :: storeW) ⟨JavaScript, [7, 11]⟩
        = ([97], some (.wrapNotFound .transport)) := by
  have h1 := (combine_writes_ordered_concatenation envW storeW JavaScript
    (fun k => if k = 7 then ⟨1, [97]⟩ else ⟨1, [98]⟩)
    (fun k => if k = 7 then [97] else [98]) [7, 9, 7] (Or.inl rfl)).1
  have h2 := (combine_writes_ordered_concatenation envW storeW JavaScript
    (fun k => if k = 7 then ⟨1, [97]⟩ else ⟨1, [98]⟩)
    (fun k => if k = 7 then [97] else [98]) [7, 3] (Or.inl rfl)).2.1
  have h3 := (combine_writes_ordered_concatenation envW
    ((11, ⟨2, [104]⟩) :: storeW) JavaScript
    (fun k => if k = 7 then ⟨1, [97]⟩ else ⟨2, [104]⟩)
    (fun k => if k = 7 then [97] else [98]) [7, 11] (Or.inl rfl)).2.2
  refine ⟨?_, ?_, ?_⟩
  · simpa using h1 (by decide)
  · simpa using h2 [7] 3 [] rfl (by decide) (by decide)
  · simpa using h3 [7] 11 [] .transport rfl (by decide) (by decide) (by decide)

/-- C8: `minifyURL` treats an HTTP response with status 400 or above as the
not-found failure — the body is never handed to the minifier — and
propagates a transport-level error of the injected HTTP client as is. -/
theorem minifyURL_failure_modes (env : MinEnv) (m : Str → Except GoErr Str)
    (r : Raw) :
    (∀ resp, env.httpGet r.buf = .ok resp → 400 ≤ resp.statusCode →
      minifyURLGo env m r = .error .notFound)
    ∧ (∀ e, env.httpGet r.buf = .error e → minifyURLGo env m r = .error e) := by
  constructor
  · intro resp hget hstatus
    simp [minifyURLGo, hget, hstatus]
  · intro e hget
    simp [minifyURLGo, hget]

/-- C8 witness: a 404 response resolves to `ErrNotFound` even though its
body is non-empty, and a transport error propagates unchanged. -/
theorem minifyURL_failure_modes_witness :
    minifyURLGo env404 (fun s => .ok s) ⟨2, [117]⟩ = .error .notFound
    ∧ minifyURLGo envDown (fun s => .ok s) ⟨2, [117]⟩ = .error .transport := by
  constructor
  · exact (minifyURL_failure_modes env404 (fun s => .ok s) ⟨2, [117]⟩).1
      ⟨404, [110, 111]⟩ rfl (by decide)
  · exact (minifyURL_failure_modes envDown (fun s => .ok s) ⟨2, [117]⟩).2
      .transport rfl

/-- C9: when `AddFile` hits a name whose path reduces to "." or whose stat
fails (the file does not exist), the error is returned synchronously and
the state — raw store and fingerprint list — is returned exactly as it was:
the failing fragment is never stored and never appended. -/
theorem addFile_failure_leaves_state (clean : Str → Str)
    (stat : Str → Option GoErr) (src : Str) (st : AssetSt) (n : Str)
    (rest : List Str) :
    (dirStr clean n = [46] →
      addFile clean stat src st (n :: rest) = (st, some .unexpectedEOF))
    ∧ (∀ e, ¬ dirStr clean n = [46] →
        stat (joinPath clean (dirStr clean src) (dirStr clean n)) = some e →
        addFile clean stat src st (n :: rest) = (st, some e)) := by
  constructor
  · intro h
    simp [addFile, h]
  · intro e hne hstat
    simp [addFile, hne, hstat]

/-- C9 witness: with the identity as Clean and a stat that reports every
path missing, adding the empty name fails with `ErrUnexpectedEOF` and
adding "a" fails with the stat error, both leaving the empty state
untouched. -/
theorem addFile_failure_leaves_state_witness :
    addFile (fun s => s) (fun _ => some .osStat) [115] ⟨[], []⟩ [[]]
      = (⟨[], []⟩, some .unexpectedEOF)
    ∧ addFile (fun s => s) (fun _ => some .osStat) [115] ⟨[], []⟩ [[97]]
      = (⟨[], []⟩, some .osStat) := by
  constructor
  · exact (addFile_failure_leaves_state (fun s => s) (fun _ => some .osStat)
      [115] ⟨[], []⟩ [] []).1 (by decide)
  · exact (addFile_failure_leaves_state (fun s => s) (fun _ => some .osStat)
      [115] ⟨[], []⟩ [97] []).2 .osStat (by decide) rfl

end Combine
